import Mathlib

/-!
Shallow embedding of the playwright-go event emitter (`event_emitter.go`)
and of the pointer-helper utilities, together with proofs of the spec's
claims about them.

A Go handler value (`interface{}` holding a function) is modelled by its
function-pointer identity (`ptr`, what `reflect.ValueOf(h).Pointer()`
returns), its declared arity (`numIn`, what `reflect.Type.NumIn` returns)
and a predicate `raises` saying whether a call with the given arguments
panics.  Operations return, besides the new emitter state, a trace of
observable events (hook invocations, handler calls with the exact argument
list passed, insertions and removals) plus, for `Emit`, a flag telling
whether the dispatch completed without a panic: a handler panic propagates
out of `Emit` past the deferred unlock, skipping the statements after it.
The Go map `events` is modelled by an association list; map iteration
order only ever feeds a commutative sum, so the list order is harmless.
-/

namespace PlaywrightGo

/-- A registered handler: function-pointer identity, declared arity, and
whether invoking it on a given argument list panics. -/
structure Handler (V : Type) where
  ptr : Nat
  numIn : Nat
  raises : List V → Bool

/-- Per-event-name pair of ordered handler sequences, as in `eventRegister`. -/
structure eventRegister (V : Type) where
  once : List (Handler V)
  «on» : List (Handler V)

/-- Observable events of an emitter operation: a hook invocation with
`(name, handler)`, a handler call with the argument list actually passed,
an insertion into a sequence, a removal pass for a pointer. -/
inductive Ev (V : Type) where
  | hook (hookId : Nat) (name : String) (hptr : Nat)
  | call (hptr : Nat) (args : List V)
  | insert (name : String) (hptr : Nat) (once : Bool)
  | remove (name : String) (hptr : Nat)
  deriving DecidableEq

/-- The emitter state: the map from event name to its register and the two
hook lists (hooks are identified by a number, standing for the Go function
value). -/
structure EventEmitter (V : Type) where
  events : List (String × eventRegister V)
  addEventHandlers : List Nat
  removeEventHandlers : List Nat

/-- Go map lookup `e.events[name]` on the association-list model. -/
def findReg {V : Type} : List (String × eventRegister V) → String → Option (eventRegister V)
  | [], _ => none
  | (k, v) :: t, n => if k = n then some v else findReg t n

/-- Go map store `e.events[name] = r` on the association-list model. -/
def setReg {V : Type} : List (String × eventRegister V) → String → eventRegister V → List (String × eventRegister V)
  | [], n, r => [(n, r)]
  | (k, v) :: t, n, r => if k = n then (n, r) :: t else (k, v) :: setReg t n r

/-- One `for _, mitm := range hooks { mitm(name, handler) }` loop, as a trace. -/
def runHooks {V : Type} (name : String) (p : Nat) : List Nat → List (Ev V)
  | [] => []
  | k :: t => Ev.hook k name p :: runHooks name p t

/-- One handler-loop of `Emit`: each handler is called with
`payload[:handler.NumIn()]`; slicing past the supplied arguments, or a
handler panic, aborts the loop (the panic propagates).  Returns the calls
made and whether the loop finished normally. -/
def dispatch {V : Type} (payload : List V) : List (Handler V) → List (Ev V) × Bool
  | [] => ([], true)
  | h :: t =>
    if h.numIn ≤ payload.length then
      if h.raises (payload.take h.numIn) then
        ([Ev.call h.ptr (payload.take h.numIn)], false)
      else
        let r := dispatch payload t
        (Ev.call h.ptr (payload.take h.numIn) :: r.1, r.2)
    else ([], false)

/-- `Emit`: no-op when the name has no entry; otherwise the durable loop,
then the one-shot loop, then `e.events[name].once = make([]interface{}, 0)`.
A panic anywhere skips the clearing (only the deferred unlock runs); the
returned flag is `false` in that case. -/
def EventEmitter.Emit {V : Type} (e : EventEmitter V) (name : String) (payload : List V) :
    EventEmitter V × List (Ev V) × Bool :=
  match findReg e.events name with
  | none => (e, [], true)
  | some reg =>
    let r1 := dispatch payload reg.«on»
    if r1.2 then
      let r2 := dispatch payload reg.once
      if r2.2 then
        ({ e with events := setReg e.events name { reg with once := [] } },
         r1.1 ++ r2.1, true)
      else (e, r1.1 ++ r2.1, false)
    else (e, r1.1, false)

/-- `addEvent`: every add-hook runs first with `(name, handler)`, then the
register is created if absent and the handler appended to the chosen
sequence. -/
def EventEmitter.addEvent {V : Type} (e : EventEmitter V) (name : String) (h : Handler V)
    (once : Bool) : EventEmitter V × List (Ev V) :=
  let tr : List (Ev V) := runHooks name h.ptr e.addEventHandlers ++ [Ev.insert name h.ptr once]
  let reg := match findReg e.events name with
    | none => (⟨[], []⟩ : eventRegister V)
    | some reg => reg
  let reg' := if once then { reg with once := reg.once ++ [h] }
    else { reg with «on» := reg.«on» ++ [h] }
  ({ e with events := setReg e.events name reg' }, tr)

/-- `Once(name, handler)` is `addEvent(name, handler, true)`. -/
def EventEmitter.Once {V : Type} (e : EventEmitter V) (name : String) (h : Handler V) :
    EventEmitter V × List (Ev V) :=
  e.addEvent name h true

/-- `On(name, handler)` is `addEvent(name, handler, false)`. -/
def EventEmitter.On {V : Type} (e : EventEmitter V) (name : String) (h : Handler V) :
    EventEmitter V × List (Ev V) :=
  e.addEvent name h false

/-- `addEventHandler` appends an add-hook. -/
def EventEmitter.addEventHandler {V : Type} (e : EventEmitter V) (k : Nat) : EventEmitter V :=
  { e with addEventHandlers := e.addEventHandlers ++ [k] }

/-- `removeEventHandler` appends a remove-hook. -/
def EventEmitter.removeEventHandler {V : Type} (e : EventEmitter V) (k : Nat) : EventEmitter V :=
  { e with removeEventHandlers := e.removeEventHandlers ++ [k] }

/-- `RemoveListener`: every remove-hook runs first with `(name, handler)`;
if the name has no entry the state is untouched; otherwise both sequences
are rebuilt keeping exactly the entries whose function pointer differs from
the argument's. -/
def EventEmitter.RemoveListener {V : Type} (e : EventEmitter V) (name : String) (h : Handler V) :
    EventEmitter V × List (Ev V) :=
  let tr : List (Ev V) := runHooks name h.ptr e.removeEventHandlers
  match findReg e.events name with
  | none => (e, tr)
  | some reg =>
    let onHandlers := reg.«on».filter (fun x => x.ptr != h.ptr)
    let onceHandlers := reg.once.filter (fun x => x.ptr != h.ptr)
    ({ e with events := setReg e.events name { once := onceHandlers, «on» := onHandlers } },
     tr ++ [Ev.remove name h.ptr])

/-- `ListenerCount`: sums `len(on) + len(once)` over every key of the map;
the `name` parameter is not used by the body. -/
def EventEmitter.ListenerCount {V : Type} (e : EventEmitter V) (name : String) : Nat :=
  (e.events.map (fun kv => kv.2.«on».length + kv.2.once.length)).sum

/-- `initEventEmitter` resets the event map (hooks are left as they are). -/
def EventEmitter.initEventEmitter {V : Type} (e : EventEmitter V) : EventEmitter V :=
  { e with events := [] }

/-! Observers used to state the claims. -/

/-- Length of the one-shot sequence registered under `name` (0 when the
name has no entry). -/
def onceLenAt {V : Type} (e : EventEmitter V) (name : String) : Nat :=
  match findReg e.events name with
  | none => 0
  | some reg => reg.once.length

/-- Number of `call` trace events carrying pointer `p`. -/
def callCount {V : Type} (tr : List (Ev V)) (p : Nat) : Nat :=
  tr.countP (fun ev => match ev with
    | Ev.call q _ => q == p
    | _ => false)

/-- Sum of `f` over every register of the association list. -/
def sumOver {V : Type} (l : List (String × eventRegister V)) (f : eventRegister V → Nat) : Nat :=
  (l.map (fun kv => f kv.2)).sum

/-- Occurrences of pointer `p` in a register's durable sequence. -/
def countOn {V : Type} (reg : eventRegister V) (p : Nat) : Nat :=
  reg.«on».countP (fun h => h.ptr == p)

/-- Occurrences of pointer `p` in a register's one-shot sequence. -/
def countOnce {V : Type} (reg : eventRegister V) (p : Nat) : Nat :=
  reg.once.countP (fun h => h.ptr == p)

/-- Occurrences of pointer `p` in durable sequences across all names. -/
def onCount {V : Type} (e : EventEmitter V) (p : Nat) : Nat :=
  sumOver e.events (fun reg => countOn reg p)

/-- Occurrences of pointer `p` in both sequences across all names. -/
def totalCount {V : Type} (e : EventEmitter V) (p : Nat) : Nat :=
  sumOver e.events (fun reg => countOn reg p + countOnce reg p)

/-- Run a list of `Emit` calls in order, collecting the concatenated trace
and whether every one of them completed without a panic. -/
def runEmits {V : Type} (e : EventEmitter V) : List (String × List V) → EventEmitter V × List (Ev V) × Bool
  | [] => (e, [], true)
  | (n, pl) :: rest =>
    let r1 := e.Emit n pl
    let r2 := runEmits r1.1 rest
    (r2.1, r1.2.1 ++ r2.2.1, r1.2.2 && r2.2.2)

/-! Model of the pointer-helper utilities.  A Go pointer is modelled by the
content of the cell it points to; the helpers allocate a fresh cell holding
their argument. -/

/-- A Go pointer, reduced to the content of its cell. -/
structure Ptr (α : Type) where
  deref : α
  deriving DecidableEq

/-- Go `string` values. -/
abbrev GoString := String

/-- Go `bool` values. -/
abbrev GoBool := Bool

/-- Go `int` values (no arithmetic is modelled, so width is irrelevant). -/
abbrev GoInt := Int

/-- Go `float64` values, identified by their 64-bit pattern (the helpers
only store and never compute, so no floating-point semantics is needed). -/
structure Float64 where
  bits : Nat
  deriving DecidableEq

namespace helpers

/-- `String` allocates a new string value to store `v` and returns a
pointer to it. -/
def String (v : GoString) : Ptr GoString :=
  ⟨v⟩

/-- `Bool` allocates a new bool value to store `v` and returns a pointer
to it. -/
def Bool (v : GoBool) : Ptr GoBool :=
  ⟨v⟩

/-- `Int` allocates a new int value to store `v` and returns a pointer
to it. -/
def Int (v : GoInt) : Ptr GoInt :=
  ⟨v⟩

/-- `Float` allocates a new float64 value to store `v` and returns a
pointer to it. -/
def Float (v : Float64) : Ptr Float64 :=
  ⟨v⟩

end helpers

/-- Handler occurrences of pointer `p` under one event name (0 when the
name has no entry). -/
def countAt {V : Type} (e : EventEmitter V) (name : String) (p : Nat) : Nat :=
  match findReg e.events name with
  | none => 0
  | some reg => countOn reg p + countOnce reg p

/-! Lemmas about the association-list map. -/

theorem findReg_setReg_self {V : Type} (l : List (String × eventRegister V)) (n : String)
    (r : eventRegister V) : findReg (setReg l n r) n = some r := by
  induction l with
  | nil => simp [setReg, findReg]
  | cons kv t ih =>
    obtain ⟨k, v⟩ := kv
    by_cases hk : k = n
    · simp [setReg, hk, findReg]
    · simp [setReg, hk, findReg, ih]

theorem setReg_of_findReg_self {V : Type} {l : List (String × eventRegister V)} {n : String}
    {r : eventRegister V} (h : findReg l n = some r) : setReg l n r = l := by
  induction l with
  | nil => simp [findReg] at h
  | cons kv t ih =>
    obtain ⟨k, v⟩ := kv
    by_cases hk : k = n
    · simp [findReg, hk] at h
      simp [setReg, hk, h]
    · simp [findReg, hk] at h
      simp [setReg, hk, ih h]

theorem setReg_setReg {V : Type} (l : List (String × eventRegister V)) (n : String)
    (r r' : eventRegister V) : setReg (setReg l n r) n r' = setReg l n r' := by
  induction l with
  | nil => simp [setReg]
  | cons kv t ih =>
    obtain ⟨k, v⟩ := kv
    by_cases hk : k = n
    · simp [setReg, hk]
    · simp [setReg, hk, ih]

theorem sumOver_setReg_of_some {V : Type} {l : List (String × eventRegister V)} {n : String}
    {reg : eventRegister V} (f : eventRegister V → Nat) (r : eventRegister V)
    (h : findReg l n = some reg) :
    sumOver (setReg l n r) f + f reg = sumOver l f + f r := by
  induction l with
  | nil => simp [findReg] at h
  | cons kv t ih =>
    obtain ⟨k, v⟩ := kv
    by_cases hk : k = n
    · simp [findReg, hk] at h
      simp [setReg, hk, sumOver, h]
      omega
    · simp [findReg, hk] at h
      simp [setReg, hk, sumOver] at ih ⊢
      have := ih h
      omega

theorem sumOver_setReg_of_none {V : Type} {l : List (String × eventRegister V)} {n : String}
    (f : eventRegister V → Nat) (r : eventRegister V) (h : findReg l n = none) :
    sumOver (setReg l n r) f = sumOver l f + f r := by
  induction l with
  | nil => simp [setReg, sumOver]
  | cons kv t ih =>
    obtain ⟨k, v⟩ := kv
    by_cases hk : k = n
    · simp [findReg, hk] at h
    · simp [findReg, hk] at h
      simp [setReg, hk, sumOver] at ih ⊢
      have := ih h
      omega

theorem le_sumOver_of_findReg {V : Type} {l : List (String × eventRegister V)} {n : String}
    {reg : eventRegister V} (f : eventRegister V → Nat) (h : findReg l n = some reg) :
    f reg ≤ sumOver l f := by
  induction l with
  | nil => simp [findReg] at h
  | cons kv t ih =>
    obtain ⟨k, v⟩ := kv
    by_cases hk : k = n
    · simp [findReg, hk] at h
      simp [sumOver, h]
    · simp [findReg, hk] at h
      simp [sumOver] at ih ⊢
      have := ih h
      omega

/-! Lemmas about one handler-dispatch loop. -/

theorem dispatch_eq_map_of_forall {V : Type} {pl : List V} {hs : List (Handler V)}
    (h : ∀ x ∈ hs, x.numIn ≤ pl.length ∧ x.raises (pl.take x.numIn) = false) :
    dispatch pl hs = (hs.map (fun x => Ev.call x.ptr (pl.take x.numIn)), true) := by
  induction hs with
  | nil => simp [dispatch]
  | cons a t ih =>
    obtain ⟨h1, h2⟩ := h a (List.mem_cons_self a t)
    have ht : ∀ x ∈ t, x.numIn ≤ pl.length ∧ x.raises (pl.take x.numIn) = false :=
      fun x hx => h x (List.mem_cons_of_mem a hx)
    simp [dispatch, h1, h2, ih ht]

theorem dispatch_trace_of_ok {V : Type} {pl : List V} {hs : List (Handler V)}
    (h : (dispatch pl hs).2 = true) :
    (dispatch pl hs).1 = hs.map (fun x => Ev.call x.ptr (pl.take x.numIn)) := by
  induction hs with
  | nil => simp [dispatch]
  | cons a t ih =>
    by_cases h1 : a.numIn ≤ pl.length
    · by_cases h2 : a.raises (pl.take a.numIn) = true
      · simp [dispatch, h1, h2] at h
      · have h2' : a.raises (pl.take a.numIn) = false := by
          cases hr : a.raises (pl.take a.numIn)
          · rfl
          · exact absurd hr h2
        simp [dispatch, h1, h2'] at h ⊢
        exact ih h
    · simp [dispatch, h1] at h

/-! Lemmas about trace and register counting. -/

theorem callCount_append {V : Type} (a b : List (Ev V)) (p : Nat) :
    callCount (a ++ b) p = callCount a p + callCount b p := by
  simp [callCount, List.countP_append]

theorem callCount_map_call {V : Type} (hs : List (Handler V)) (g : Handler V → List V) (p : Nat) :
    callCount (hs.map (fun x => Ev.call x.ptr (g x))) p = hs.countP (fun x => x.ptr == p) := by
  induction hs with
  | nil => simp [callCount]
  | cons a t ih =>
    simp [callCount, List.countP_cons] at ih ⊢
    exact ih

theorem onCount_le_totalCount {V : Type} (e : EventEmitter V) (p : Nat) :
    onCount e p ≤ totalCount e p := by
  simp [onCount, totalCount, sumOver]

/-- One completed `Emit` invokes pointer `p` exactly as many times as `p`
occurs in the dispatched registers, and removes the one-shot occurrences;
durable occurrences of `p` are assumed absent. -/
theorem emit_ptr_accounting {V : Type} (e : EventEmitter V) (n : String) (pl : List V) (p : Nat)
    (hon : onCount e p = 0) (hok : (e.Emit n pl).2.2 = true) :
    callCount (e.Emit n pl).2.1 p + totalCount (e.Emit n pl).1 p = totalCount e p ∧
    onCount (e.Emit n pl).1 p = 0 := by
  cases hreg : findReg e.events n with
  | none =>
    simp [EventEmitter.Emit, hreg, callCount]
    exact hon
  | some reg =>
    cases h1 : (dispatch pl reg.«on»).2 with
    | false => simp [EventEmitter.Emit, hreg, h1] at hok
    | true =>
      cases h2 : (dispatch pl reg.once).2 with
      | false => simp [EventEmitter.Emit, hreg, h1, h2] at hok
      | true =>
        have hc0le : countOn reg p ≤ onCount e p :=
          le_sumOver_of_findReg (fun r => countOn r p) hreg
        have hcc1 : callCount (dispatch pl reg.«on»).1 p = countOn reg p := by
          rw [dispatch_trace_of_ok h1]
          exact callCount_map_call reg.«on» (fun x => pl.take x.numIn) p
        have hcc2 : callCount (dispatch pl reg.once).1 p = countOnce reg p := by
          rw [dispatch_trace_of_ok h2]
          exact callCount_map_call reg.once (fun x => pl.take x.numIn) p
        have ht : sumOver (setReg e.events n { reg with once := [] })
              (fun r => countOn r p + countOnce r p) + (countOn reg p + countOnce reg p) =
            sumOver e.events (fun r => countOn r p + countOnce r p) + (countOn reg p + 0) :=
          sumOver_setReg_of_some _ _ hreg
        have ho : sumOver (setReg e.events n { reg with once := [] })
              (fun r => countOn r p) + countOn reg p =
            sumOver e.events (fun r => countOn r p) + countOn reg p :=
          sumOver_setReg_of_some _ _ hreg
        simp only [onCount] at hon hc0le
        simp [EventEmitter.Emit, hreg, h1, h2, callCount_append, hcc1, hcc2,
          totalCount, onCount]
        omega

/-- Accounting over a sequence of completed `Emit` calls: the calls made to
pointer `p` plus its remaining occurrences equal its initial occurrences,
provided `p` occurs in no durable sequence. -/
theorem runEmits_ptr_accounting {V : Type} (emits : List (String × List V)) (e : EventEmitter V)
    (p : Nat) (hon : onCount e p = 0) (hok : (runEmits e emits).2.2 = true) :
    callCount (runEmits e emits).2.1 p + totalCount (runEmits e emits).1 p = totalCount e p := by
  induction emits generalizing e with
  | nil => simp [runEmits, callCount]
  | cons a rest ih =>
    obtain ⟨n, pl⟩ := a
    simp only [runEmits, Bool.and_eq_true] at hok
    obtain ⟨hok1, hok2⟩ := hok
    obtain ⟨hacc, hon2⟩ := emit_ptr_accounting e n pl p hon hok1
    have hrec := ih (e.Emit n pl).1 hon2 hok2
    simp only [runEmits, callCount_append]
    omega

/-- `Once` adds exactly one one-shot occurrence of the handler's pointer
and no durable occurrence. -/
theorem once_count_accounting {V : Type} (e : EventEmitter V) (n : String) (h : Handler V) :
    totalCount (e.Once n h).1 h.ptr = totalCount e h.ptr + 1 ∧
    onCount (e.Once n h).1 h.ptr = onCount e h.ptr := by
  cases hreg : findReg e.events n with
  | none =>
    have ht : sumOver (setReg e.events n (⟨[] ++ [h], []⟩ : eventRegister V))
          (fun r => countOn r h.ptr + countOnce r h.ptr) =
        sumOver e.events (fun r => countOn r h.ptr + countOnce r h.ptr) +
          (countOn (⟨[] ++ [h], []⟩ : eventRegister V) h.ptr +
           countOnce (⟨[] ++ [h], []⟩ : eventRegister V) h.ptr) :=
      sumOver_setReg_of_none _ _ hreg
    have ho : sumOver (setReg e.events n (⟨[] ++ [h], []⟩ : eventRegister V))
          (fun r => countOn r h.ptr) =
        sumOver e.events (fun r => countOn r h.ptr) +
          countOn (⟨[] ++ [h], []⟩ : eventRegister V) h.ptr :=
      sumOver_setReg_of_none _ _ hreg
    have e1 : countOn (⟨[] ++ [h], []⟩ : eventRegister V) h.ptr = 0 := by
      simp [countOn]
    have e2 : countOnce (⟨[] ++ [h], []⟩ : eventRegister V) h.ptr = 1 := by
      simp [countOnce, List.countP_cons]
    rw [e1, e2] at ht
    rw [e1] at ho
    simp [EventEmitter.Once, EventEmitter.addEvent, hreg, totalCount, onCount] at ht ho ⊢
    omega
  | some reg =>
    have ht : sumOver (setReg e.events n (⟨reg.once ++ [h], reg.«on»⟩ : eventRegister V))
          (fun r => countOn r h.ptr + countOnce r h.ptr) + (countOn reg h.ptr + countOnce reg h.ptr) =
        sumOver e.events (fun r => countOn r h.ptr + countOnce r h.ptr) +
          (countOn reg h.ptr + countOnce (⟨reg.once ++ [h], reg.«on»⟩ : eventRegister V) h.ptr) :=
      sumOver_setReg_of_some _ _ hreg
    have ho : sumOver (setReg e.events n (⟨reg.once ++ [h], reg.«on»⟩ : eventRegister V))
          (fun r => countOn r h.ptr) + countOn reg h.ptr =
        sumOver e.events (fun r => countOn r h.ptr) + countOn reg h.ptr :=
      sumOver_setReg_of_some _ _ hreg
    have e2 : countOnce (⟨reg.once ++ [h], reg.«on»⟩ : eventRegister V) h.ptr =
        countOnce reg h.ptr + 1 := by
      simp [countOnce, List.countP_append, List.countP_cons]
    rw [e2] at ht
    simp [EventEmitter.Once, EventEmitter.addEvent, hreg, totalCount, onCount] at ht ho ⊢
    omega

/-- The hook loop produces one hook event per registered hook, in list
order. -/
theorem runHooks_eq_map {V : Type} (name : String) (p : Nat) (l : List Nat) :
    (runHooks name p l : List (Ev V)) = l.map (fun k => Ev.hook k name p) := by
  induction l with
  | nil => rfl
  | cons a t ih => simp [runHooks, ih]

/-! Theorems for the claims. -/

/-- Claim C9: `ListenerCount` returns the same value for any two event
names on the same emitter state: the body never uses the name argument and
sums the durable and one-shot lengths over every event name. -/
theorem listenerCount_independent_of_name (e : EventEmitter Nat) (a b : String) :
    e.ListenerCount a = e.ListenerCount b := rfl

/-- Claim C10: each pointer helper allocates a cell holding exactly its
argument, so dereferencing the returned pointer yields the value back
unchanged. -/
theorem pointer_helpers_roundtrip :
    (∀ v : GoString, (helpers.String v).deref = v) ∧
    (∀ v : GoBool, (helpers.Bool v).deref = v) ∧
    (∀ v : GoInt, (helpers.Int v).deref = v) ∧
    (∀ v : Float64, (helpers.Float v).deref = v) :=
  ⟨fun _ => rfl, fun _ => rfl, fun _ => rfl, fun _ => rfl⟩

/-- Claim C1 fails on the code: after registering a single handler under
event name "a", `ListenerCount "b"` returns 1, not 0 — the implementation
sums over every event name and ignores its argument, so the per-name
accounting the claim states does not hold. -/
theorem listenerCount_counts_all_names_at_failing_input :
    ((⟨[], [], []⟩ : EventEmitter Nat).On "a" ⟨1, 0, fun _ => false⟩).1.ListenerCount "b" = 1 :=
  rfl

/-- Claim C8: `Emit` for a name with no registry entry makes no handler
call, returns normally, leaves the state (in particular the event map)
unchanged, and a later `ListenerCount` observes the same value. -/
theorem emit_no_reg_is_noop (e : EventEmitter Nat) (name : String) (pl : List Nat)
    (hnone : findReg e.events name = none) :
    (e.Emit name pl).1 = e ∧ (e.Emit name pl).2.1 = [] ∧ (e.Emit name pl).2.2 = true ∧
    ∀ m : String, ((e.Emit name pl).1).ListenerCount m = e.ListenerCount m := by
  simp [EventEmitter.Emit, hnone]

theorem emit_no_reg_is_noop_witness :
    findReg (⟨[("a", ⟨[], [⟨1, 0, fun _ => false⟩]⟩)], [], []⟩ : EventEmitter Nat).events "b" =
      none ∧
    ((⟨[("a", ⟨[], [⟨1, 0, fun _ => false⟩]⟩)], [], []⟩ : EventEmitter Nat).Emit "b" [3]).1 =
      (⟨[("a", ⟨[], [⟨1, 0, fun _ => false⟩]⟩)], [], []⟩ : EventEmitter Nat) :=
  ⟨rfl,
   (emit_no_reg_is_noop (⟨[("a", ⟨[], [⟨1, 0, fun _ => false⟩]⟩)], [], []⟩ : EventEmitter Nat)
     "b" [3] rfl).1⟩

/-- Claim C6: a handler declaring arity 2 is accepted by `On` and by
`Once` with no validation (it lands in the corresponding sequence), and a
later `Emit` supplying a single argument fails during dispatch without the
handler having been invoked. -/
theorem arity_mismatch_accepted_then_fails_at_dispatch :
    (((⟨[], [], []⟩ : EventEmitter Nat).On "x" ⟨9, 2, fun _ => false⟩).1.events.map
        (fun kv => (kv.1, kv.2.«on».map (fun x => x.ptr), kv.2.once.map (fun x => x.ptr))) =
      [("x", [9], [])]) ∧
    ((((⟨[], [], []⟩ : EventEmitter Nat).On "x" ⟨9, 2, fun _ => false⟩).1.Emit "x" [0]).2.2 =
      false) ∧
    ((((⟨[], [], []⟩ : EventEmitter Nat).On "x" ⟨9, 2, fun _ => false⟩).1.Emit "x" [0]).2.1 =
      []) ∧
    (((⟨[], [], []⟩ : EventEmitter Nat).Once "x" ⟨9, 2, fun _ => false⟩).1.events.map
        (fun kv => (kv.1, kv.2.«on».map (fun x => x.ptr), kv.2.once.map (fun x => x.ptr))) =
      [("x", [], [9])]) :=
  ⟨rfl, rfl, rfl, rfl⟩

/-- Claim C7: `On`, `Once` and `RemoveListener` first run every registered
hook with the event name and handler, in hook-registration order, and only
then mutate the registration state (for `RemoveListener` with an unknown
name nothing is removed, but the hooks still run). -/
theorem hooks_run_in_order_before_mutation (e : EventEmitter Nat) (name : String)
    (h : Handler Nat) :
    (e.On name h).2 =
      e.addEventHandlers.map (fun k => Ev.hook k name h.ptr) ++ [Ev.insert name h.ptr false] ∧
    (e.Once name h).2 =
      e.addEventHandlers.map (fun k => Ev.hook k name h.ptr) ++ [Ev.insert name h.ptr true] ∧
    (e.RemoveListener name h).2 =
      e.removeEventHandlers.map (fun k => Ev.hook k name h.ptr) ++
        (if (findReg e.events name).isSome then [Ev.remove name h.ptr] else []) := by
  refine ⟨?_, ?_, ?_⟩
  · simp [EventEmitter.On, EventEmitter.addEvent, runHooks_eq_map]
  · simp [EventEmitter.Once, EventEmitter.addEvent, runHooks_eq_map]
  · cases hreg : findReg e.events name with
    | none => simp [EventEmitter.RemoveListener, hreg, runHooks_eq_map]
    | some reg => simp [EventEmitter.RemoveListener, hreg, runHooks_eq_map]

/-- Claim C2 (amended): when `Emit` completes without a handler panic, the
one-shot sequence for the emitted name is empty afterwards. -/
theorem emit_ok_clears_once (e : EventEmitter Nat) (name : String) (pl : List Nat)
    (hok : (e.Emit name pl).2.2 = true) :
    onceLenAt (e.Emit name pl).1 name = 0 := by
  cases hreg : findReg e.events name with
  | none => simp [EventEmitter.Emit, hreg, onceLenAt]
  | some reg =>
    cases h1 : (dispatch pl reg.«on»).2 with
    | false => simp [EventEmitter.Emit, hreg, h1] at hok
    | true =>
      cases h2 : (dispatch pl reg.once).2 with
      | false => simp [EventEmitter.Emit, hreg, h1, h2] at hok
      | true =>
        simp [EventEmitter.Emit, hreg, h1, h2, onceLenAt, findReg_setReg_self]

theorem emit_ok_clears_once_witness :
    ((((⟨[], [], []⟩ : EventEmitter Nat).Once "x" ⟨7, 0, fun _ => false⟩).1.Emit "x" []).2.2 =
      true) ∧
    onceLenAt ((((⟨[], [], []⟩ : EventEmitter Nat).Once "x" ⟨7, 0, fun _ => false⟩).1.Emit
      "x" []).1) "x" = 0 :=
  ⟨rfl,
   emit_ok_clears_once ((⟨[], [], []⟩ : EventEmitter Nat).Once "x" ⟨7, 0, fun _ => false⟩).1
     "x" [] rfl⟩

/-- Claim C2 is false as stated: with a one-shot handler for "x" that
panics, `Emit` aborts before the clearing statement, so afterwards the
one-shot sequence for "x" still holds one handler, and a later `Emit` for
"x" invokes a one-shot handler again. -/
theorem emit_raise_leaves_once_uncleared :
    onceLenAt ((((⟨[], [], []⟩ : EventEmitter Nat).Once "x" ⟨7, 0, fun _ => true⟩).1.Emit
      "x" []).1) "x" = 1 ∧
    callCount (((((⟨[], [], []⟩ : EventEmitter Nat).Once "x" ⟨7, 0, fun _ => true⟩).1.Emit
      "x" []).1.Emit "x" []).2.1) 7 = 1 :=
  ⟨rfl, rfl⟩

/-- Claim C3: when every handler registered for the name declares arity at
most the number of emitted arguments and none panics, `Emit` invokes all
durable handlers first, then all one-shot handlers, each group in
registration order, each handler receiving exactly the leading `numIn`
arguments of the payload. -/
theorem emit_trace_order_and_arity (e : EventEmitter Nat) (name : String) (pl : List Nat)
    (reg : eventRegister Nat) (hreg : findReg e.events name = some reg)
    (hfine : ∀ x ∈ reg.«on» ++ reg.once,
      x.numIn ≤ pl.length ∧ x.raises (pl.take x.numIn) = false) :
    (e.Emit name pl).2.1 =
      (reg.«on» ++ reg.once).map (fun x => Ev.call x.ptr (pl.take x.numIn)) ∧
    (e.Emit name pl).2.2 = true := by
  have hon : ∀ x ∈ reg.«on», x.numIn ≤ pl.length ∧ x.raises (pl.take x.numIn) = false :=
    fun x hx => hfine x (List.mem_append_left _ hx)
  have honce : ∀ x ∈ reg.once, x.numIn ≤ pl.length ∧ x.raises (pl.take x.numIn) = false :=
    fun x hx => hfine x (List.mem_append_right _ hx)
  have d1 := dispatch_eq_map_of_forall hon
  have d2 := dispatch_eq_map_of_forall honce
  simp [EventEmitter.Emit, hreg, d1, d2]

theorem emit_trace_order_and_arity_witness :
    (findReg ((((⟨[], [], []⟩ : EventEmitter Nat).On "x" ⟨1, 1, fun _ => false⟩).1.Once "x"
        ⟨2, 0, fun _ => false⟩).1.events) "x" =
      some ⟨[⟨2, 0, fun _ => false⟩], [⟨1, 1, fun _ => false⟩]⟩) ∧
    (∀ x ∈ ([⟨1, 1, fun _ => false⟩] ++ [⟨2, 0, fun _ => false⟩] : List (Handler Nat)),
      x.numIn ≤ ([5, 6] : List Nat).length ∧ x.raises (([5, 6] : List Nat).take x.numIn) = false) ∧
    (((((⟨[], [], []⟩ : EventEmitter Nat).On "x" ⟨1, 1, fun _ => false⟩).1.Once "x"
        ⟨2, 0, fun _ => false⟩).1.Emit "x" [5, 6]).2.1 = [Ev.call 1 [5], Ev.call 2 []]) ∧
    (((((⟨[], [], []⟩ : EventEmitter Nat).On "x" ⟨1, 1, fun _ => false⟩).1.Once "x"
        ⟨2, 0, fun _ => false⟩).1.Emit "x" [5, 6]).2.2 = true) := by
  have happ := emit_trace_order_and_arity
    ((((⟨[], [], []⟩ : EventEmitter Nat).On "x" ⟨1, 1, fun _ => false⟩).1.Once "x"
      ⟨2, 0, fun _ => false⟩).1) "x" [5, 6]
    ⟨[⟨2, 0, fun _ => false⟩], [⟨1, 1, fun _ => false⟩]⟩ rfl (by decide)
  exact ⟨rfl, by decide, happ.1, happ.2⟩

/-- Claim C5: `RemoveListener` rebuilds both sequences of the named
register keeping exactly the handlers whose function pointer differs from
the argument's (identity, not value, comparison); when the pointer occurs
nowhere under that name the state is unchanged; and removing twice equals
removing once. -/
theorem removeListener_removes_by_identity_noop_idempotent (e : EventEmitter Nat)
    (name : String) (h : Handler Nat) :
    (∀ reg, findReg e.events name = some reg →
      findReg (e.RemoveListener name h).1.events name =
        some ⟨reg.once.filter (fun x => x.ptr != h.ptr),
              reg.«on».filter (fun x => x.ptr != h.ptr)⟩) ∧
    (countAt e name h.ptr = 0 → (e.RemoveListener name h).1 = e) ∧
    ((e.RemoveListener name h).1.RemoveListener name h).1 = (e.RemoveListener name h).1 := by
  refine ⟨?_, ?_, ?_⟩
  · intro reg hreg
    simp [EventEmitter.RemoveListener, hreg, findReg_setReg_self]
  · intro hz
    cases hreg : findReg e.events name with
    | none => simp [EventEmitter.RemoveListener, hreg]
    | some reg =>
      simp [countAt, hreg] at hz
      have hzon : countOn reg h.ptr = 0 := by omega
      have hzonce : countOnce reg h.ptr = 0 := by omega
      have hfon : reg.«on».filter (fun x => x.ptr != h.ptr) = reg.«on» := by
        rw [List.filter_eq_self]
        intro a ha
        have hne := List.countP_eq_zero.mp hzon a ha
        simp at hne
        simp [hne]
      have hfonce : reg.once.filter (fun x => x.ptr != h.ptr) = reg.once := by
        rw [List.filter_eq_self]
        intro a ha
        have hne := List.countP_eq_zero.mp hzonce a ha
        simp at hne
        simp [hne]
      simp [EventEmitter.RemoveListener, hreg, hfon, hfonce, setReg_of_findReg_self hreg]
  · cases hreg : findReg e.events name with
    | none => simp [EventEmitter.RemoveListener, hreg]
    | some reg =>
      simp [EventEmitter.RemoveListener, hreg, findReg_setReg_self, setReg_setReg,
        List.filter_filter]

theorem removeListener_removes_by_identity_noop_idempotent_witness :
    (findReg (⟨[("x", ⟨[⟨1, 0, fun _ => false⟩], [⟨1, 0, fun _ => false⟩,
        ⟨2, 0, fun _ => false⟩]⟩)], [], []⟩ : EventEmitter Nat).events "x" =
      some ⟨[⟨1, 0, fun _ => false⟩], [⟨1, 0, fun _ => false⟩, ⟨2, 0, fun _ => false⟩]⟩) ∧
    (findReg ((⟨[("x", ⟨[⟨1, 0, fun _ => false⟩], [⟨1, 0, fun _ => false⟩,
        ⟨2, 0, fun _ => false⟩]⟩)], [], []⟩ : EventEmitter Nat).RemoveListener "x"
        ⟨1, 0, fun _ => false⟩).1.events "x" =
      some ⟨([⟨1, 0, fun _ => false⟩] : List (Handler Nat)).filter
              (fun x => x.ptr != (⟨1, 0, fun _ => false⟩ : Handler Nat).ptr),
            ([⟨1, 0, fun _ => false⟩, ⟨2, 0, fun _ => false⟩] : List (Handler Nat)).filter
              (fun x => x.ptr != (⟨1, 0, fun _ => false⟩ : Handler Nat).ptr)⟩) :=
  ⟨rfl,
   (removeListener_removes_by_identity_noop_idempotent
      (⟨[("x", ⟨[⟨1, 0, fun _ => false⟩], [⟨1, 0, fun _ => false⟩,
        ⟨2, 0, fun _ => false⟩]⟩)], [], []⟩ : EventEmitter Nat) "x"
      ⟨1, 0, fun _ => false⟩).1
     ⟨[⟨1, 0, fun _ => false⟩], [⟨1, 0, fun _ => false⟩, ⟨2, 0, fun _ => false⟩]⟩ rfl⟩

/-- Claim C4 (amended): a handler whose function pointer occurs nowhere on
the emitter and is then registered once via `Once` is invoked at most once
across any sequence of `Emit` calls, provided every one of those `Emit`
calls completes without a handler panic (so its clearing statement runs). -/
theorem once_handler_at_most_once_when_ok (e : EventEmitter Nat) (name : String)
    (h : Handler Nat) (emits : List (String × List Nat))
    (hfresh : totalCount e h.ptr = 0)
    (hok : (runEmits (e.Once name h).1 emits).2.2 = true) :
    callCount (runEmits (e.Once name h).1 emits).2.1 h.ptr ≤ 1 := by
  obtain ⟨ht, ho⟩ := once_count_accounting e name h
  have hle := onCount_le_totalCount e h.ptr
  have hon1 : onCount (e.Once name h).1 h.ptr = 0 := by omega
  have hacc := runEmits_ptr_accounting emits (e.Once name h).1 h.ptr hon1 hok
  omega

theorem once_handler_at_most_once_when_ok_witness :
    totalCount (⟨[], [], []⟩ : EventEmitter Nat) 5 = 0 ∧
    (runEmits ((⟨[], [], []⟩ : EventEmitter Nat).Once "x" ⟨5, 0, fun _ => false⟩).1
      [("x", []), ("x", [])]).2.2 = true ∧
    callCount (runEmits ((⟨[], [], []⟩ : EventEmitter Nat).Once "x" ⟨5, 0, fun _ => false⟩).1
      [("x", []), ("x", [])]).2.1 5 ≤ 1 :=
  ⟨rfl, rfl,
   once_handler_at_most_once_when_ok (⟨[], [], []⟩ : EventEmitter Nat) "x"
     ⟨5, 0, fun _ => false⟩ [("x", []), ("x", [])] rfl rfl⟩

/-- Claim C4 is false as stated: one-shot handlers with pointers 5 and 7
for "x", where 7 panics.  The first `Emit` runs handler 5, then panics
inside handler 7, skipping the clearing of the one-shot sequence; a second
`Emit` therefore runs handler 5 again, so the `Once`-registered handler 5
is invoked twice in total. -/
theorem once_handler_can_run_twice_after_raise :
    callCount (runEmits ((((⟨[], [], []⟩ : EventEmitter Nat).Once "x"
      ⟨5, 0, fun _ => false⟩).1.Once "x" ⟨7, 0, fun _ => true⟩).1)
      [("x", []), ("x", [])]).2.1 5 = 2 :=
  rfl

end PlaywrightGo
